import Mathlib

/-
Verification of the optimistic-overlay collection engine
(`packages/optimistic/src/collection.ts`).

The embedding is shallow: JavaScript `Map`s become association lists with
JS `Map` semantics (`mget`/`mset`/`mdel`), records become association lists
from field names to opaque values, object spread `{...a, ...b}` becomes
`spread a b` (right operand wins on lookup), and the `Collection` class
becomes the `CollState` structure together with pure functions transcribing
its methods and sync callbacks.  Parts of the repository that are referenced
by `collection.ts` but whose sources are not available
(`TransactionManager.ts`, `proxy.ts`) are modelled from the specification
and marked as such in their doc comments.
-/

set_option autoImplicit false

namespace Optimistic

/-! ## Maps and records -/

/-- Field values are opaque to the engine; modelled as `Nat`. -/
abbrev Val := Nat

abbrev Field := String

abbrev Key := String

/-- A JS object / record: association list from field names to values,
first occurrence wins on lookup. -/
abbrev Rec := List (Field × Val)

section MapOps

variable {κ : Type} {α : Type} [DecidableEq κ]

/-- `Map.get` / property lookup: first entry with the given key. -/
def mget : List (κ × α) → κ → Option α
  | [], _ => none
  | p :: rest, k => if p.1 = k then some p.2 else mget rest k

/-- `Map.set`: replace the value in place if the key is present,
otherwise append the new entry at the end (JS `Map` insertion order). -/
def mset : List (κ × α) → κ → α → List (κ × α)
  | [], k, v => [(k, v)]
  | p :: rest, k, v => if p.1 = k then (k, v) :: rest else p :: mset rest k v

/-- `Map.delete`: remove the entries with the given key. -/
def mdel (m : List (κ × α)) (k : κ) : List (κ × α) :=
  m.filter fun p => decide (¬ p.1 = k)


end MapOps

/-- JS object spread `{...a, ...b}` at lookup level: fields of `b` win over
fields of `a`.  With first-occurrence lookup this is `b ++ a`. -/
def spread (a b : Rec) : Rec := b ++ a


/-! ## Core data types (from `collection.ts` and `types.ts` declarations) -/

/-- Transaction lifecycle states (`TransactionState`). -/
inductive TransactionState where
  | pending
  | persisting
  | completed
  | failed
deriving DecidableEq, Repr

/-- `completed` and `failed` are the terminal states.  `collection.ts` writes
this both as the `terminalStates` set in `commitPendingTransactions` and as
the double inequality filter in `optimisticOperations`; they agree. -/
def isTerminalB : TransactionState → Bool
  | .completed => true
  | .failed => true
  | _ => false

/-- Operation kinds carried by change messages and mutations. -/
inductive OpType where
  | insert
  | update
  | delete
deriving DecidableEq, Repr

/-- One atomic change to one key (`PendingMutation`).  The nondeterministic
bookkeeping fields of the source (`mutationId` from `crypto.randomUUID()`,
`createdAt`, `updatedAt` timestamps) are omitted; no observable behaviour in
the claims depends on them. -/
structure PendingMutation where
  key : Key
  type : OpType
  original : Rec
  modified : Rec
  changes : Rec
  metadata : Option Rec
  syncMetadata : Rec
deriving DecidableEq, Repr

/-- A transaction: lifecycle state plus its ordered mutations. -/
structure Transaction where
  state : TransactionState
  mutations : List PendingMutation
deriving DecidableEq, Repr

/-- A change notification (`ChangeMessage`).  `metadata` is opaque; an
absent (`undefined`) metadata is modelled as the empty record. -/
structure ChangeMessage where
  type : OpType
  key : Key
  value : Rec
  metadata : Rec := []
deriving DecidableEq, Repr

/-- One pending ingestion buffer (`PendingSyncedTransaction`). -/
structure PendingSyncedTransaction where
  committed : Bool
  operations : List ChangeMessage
deriving DecidableEq, Repr

/-- Mapping from key to record (`syncedData`, the derived state, ...). -/
abbrev RMap := List (Key × Rec)

/-! ## Overlay derivation (`optimisticOperations` and `derivedState`) -/

/-- The projection from a mutation to the change message fed to the overlay
(`optimisticOperations` body): `value` is `mutation.modified`; an
`undefined`/`null` mutation metadata becomes the empty record. -/
def toChangeMessage (m : PendingMutation) : ChangeMessage :=
  { type := m.type, key := m.key, value := m.modified,
    metadata := m.metadata.getD [] }

/-- `optimisticOperations`: the change messages of every transaction that is
neither `completed` nor `failed`, in transaction order then mutation order. -/
def optimisticOperations (txs : List Transaction) : List ChangeMessage :=
  ((txs.filter fun t => !(isTerminalB t.state)).map
    fun t => t.mutations.map toChangeMessage).flatten

/-- One step of the `derivedState` loop.  Note that an `update` merges the
operation's value onto the record present in `syncedData` (not onto the
record accumulated in `combined` so far) — this is exactly what the source
does with `existingValue = syncedData.get(operation.key)`. -/
def applyOperation (syncedData : RMap) (combined : RMap)
    (op : ChangeMessage) : RMap :=
  match op.type with
  | .insert => mset combined op.key op.value
  | .update =>
      mset combined op.key (spread ((mget syncedData op.key).getD []) op.value)
  | .delete => mdel combined op.key

/-- The body of the `derivedState` derivation: the synced data with the
optimistic operations applied on top. -/
def derivedStateFn (syncedData : RMap) (operations : List ChangeMessage) :
    RMap :=
  operations.foldl (applyOperation syncedData) syncedData

/-- The overlay read view (`collection.state`) as a function of the synced
dataset and the live transaction list. -/
def overlayOf (synced : RMap) (txs : List Transaction) : RMap :=
  derivedStateFn synced (optimisticOperations txs)

/-- The mutations of the non-terminal transactions, in transaction order then
mutation order ("surviving" mutations, in creation order). -/
def mutationsOfNonTerminal (txs : List Transaction) : List PendingMutation :=
  ((txs.filter fun t => !(isTerminalB t.state)).map fun t => t.mutations).flatten

/-- One mutation applied as the code applies it (insert sets the key to the
mutation's record, update merges onto the synced record, delete removes). -/
def applyMutationCode (synced : RMap) (combined : RMap)
    (m : PendingMutation) : RMap :=
  applyOperation synced combined (toChangeMessage m)

/-- Overlay recomposition as the specification paragraph words it: mutations
applied sequentially, an update merging the mutation's fields into the record
existing in the view built so far (or the empty record).  This definition
follows the spec's words and is compared against the code's derivation. -/
def applyMutationSpec (combined : RMap) (m : PendingMutation) : RMap :=
  match m.type with
  | .insert => mset combined m.key m.modified
  | .update =>
      mset combined m.key (spread ((mget combined m.key).getD []) m.modified)
  | .delete => mdel combined m.key


/-! ## Collection state -/

/-- An object reference: the identity (`id`) of a live JS object together
with its record value.  `WeakMap` keys compare by identity, i.e. by `id`. -/
structure ObjRef where
  id : Nat
  val : Rec
deriving DecidableEq, Repr

/-- Errors thrown by the collection.  Each constructor corresponds to one
`throw new Error(...)` site (or `SchemaValidationError`) in `collection.ts`. -/
inductive CollErr where
  /-- `Cannot use mutation operators without providing a mutationFn ...` -/
  | noMutationFn
  /-- `Object not found in collection` -/
  | objectNotFound
  /-- `No pending sync transaction to write to` / `... to commit` -/
  | noPendingSyncTransaction
  /-- `The pending sync transaction is already committed, ...` -/
  | alreadyCommitted
  /-- `No changes were made to any of the objects` -/
  | noChanges
  /-- `SchemaValidationError` with operation kind and issue messages -/
  | schemaError (ty : OpType) (issues : List String)
deriving DecidableEq, Repr

/-- Collection configuration: whether a `mutationFn` was provided and the
optional schema, as a synchronous validate function
`value -> {value} | {issues}`. -/
structure Config where
  hasMutationFn : Bool
  schema : Option (Rec → Except (List String) Rec)

/-- The mutable state of a `Collection` instance.  `overlayObjs` models the
JS object references currently stored in the `derivedState` map (object
identity is not derivable from data, so it is carried explicitly);
`firedCallbacks` is a ghost log of the first-commit callbacks that have been
invoked, in invocation order. -/
structure CollState where
  config : Config
  syncedData : RMap
  syncedMetadata : RMap
  pendingSyncedTransactions : List PendingSyncedTransaction
  transactions : List Transaction
  hasReceivedFirstCommit : Bool
  onFirstCommitCallbacks : List Nat
  firedCallbacks : List Nat
  objectKeyMap : List (Nat × Key)
  overlayObjs : List (Key × ObjRef)

/-- A fresh collection right after construction. -/
def initState (cfg : Config) : CollState :=
  { config := cfg, syncedData := [], syncedMetadata := [],
    pendingSyncedTransactions := [], transactions := [],
    hasReceivedFirstCommit := false, onFirstCommitCallbacks := [],
    firedCallbacks := [], objectKeyMap := [], overlayObjs := [] }

def defaultConfig : Config := { hasMutationFn := true, schema := none }

/-- `this.state.get(key)` at the data level: the record currently held by
the overlay for `key`. -/
def stateGet (s : CollState) (k : Key) : Option Rec :=
  (mget s.overlayObjs k).map fun o => o.val

/-! ## Ingestion merge (`commitPendingTransactions`) -/

/-- One buffered operation folded into `(syncedMetadata, syncedData)`,
exactly as the two `setState` switches do it: insert overwrites, update
spreads onto the existing (possibly absent) entry, delete removes. -/
def applySyncedOp (acc : RMap × RMap) (op : ChangeMessage) : RMap × RMap :=
  ( match op.type with
    | .insert => mset acc.1 op.key op.metadata
    | .update =>
        mset acc.1 op.key (spread ((mget acc.1 op.key).getD []) op.metadata)
    | .delete => mdel acc.1 op.key
  , match op.type with
    | .insert => mset acc.2 op.key op.value
    | .update =>
        mset acc.2 op.key (spread ((mget acc.2 op.key).getD []) op.value)
    | .delete => mdel acc.2 op.key )

/-- The nested merge loop of `commitPendingTransactions`: every queued
buffer, in order, every operation inside it, in order.  Note the loop does
not consult the buffer's `committed` flag. -/
def mergeBuffers (md dt : RMap) (bufs : List PendingSyncedTransaction) :
    RMap × RMap :=
  bufs.foldl (fun acc buf => buf.operations.foldl applySyncedOp acc) (md, dt)

/-- The keys touched by the queued buffers (the `keys` set of the source;
the source dedups via `Set`, which is irrelevant because `mset` with the
same pair is idempotent). -/
def touchedKeys (bufs : List PendingSyncedTransaction) : List Key :=
  ((bufs.map fun b => b.operations).flatten.map fun op => op.key)

/-- The `keys.forEach` loop refreshing `objectKeyMap`: for each touched key
present in the overlay, associate the overlay's current object with the key.
`overlayObjs` stands for the object identities the derived state holds. -/
def refreshKeyMap (okm : List (Nat × Key)) (objs : List (Key × ObjRef))
    (ks : List Key) : List (Nat × Key) :=
  ks.foldl
    (fun m k =>
      match mget objs k with
      | some o => mset m o.id k
      | none => m)
    okm

/-- `commitPendingTransactions`: if the transaction set is empty or contains
no non-terminal transaction, fold every queued buffer into the synced data
and metadata, refresh the key associations, clear the queue, and — on the
first such merge only — fire and clear the registered first-commit
callbacks.  Otherwise do nothing. -/
def commitPendingTransactions (s : CollState) : CollState :=
  if s.transactions.isEmpty
      || !(s.transactions.any fun t => !(isTerminalB t.state)) then
    let folded := mergeBuffers s.syncedMetadata s.syncedData
      s.pendingSyncedTransactions
    let okm := refreshKeyMap s.objectKeyMap s.overlayObjs
      (touchedKeys s.pendingSyncedTransactions)
    let s1 := { s with
                syncedMetadata := folded.1
                syncedData := folded.2
                objectKeyMap := okm
                pendingSyncedTransactions := [] }
    if s.hasReceivedFirstCommit then s1
    else
      { s1 with
        hasReceivedFirstCommit := true
        onFirstCommitCallbacks := []
        firedCallbacks := s.firedCallbacks ++ s.onFirstCommitCallbacks }
  else s

/-! ## Sync-source ingestion callbacks (`begin` / `write` / `commit`) -/

/-- The `begin` callback: unconditionally pushes a fresh open buffer.  The
source contains no check and no `throw`, so the transcription is total. -/
def beginCb (s : CollState) : CollState :=
  { s with pendingSyncedTransactions :=
      s.pendingSyncedTransactions ++ [{ committed := false, operations := [] }] }

/-- The `write` callback: appends the message to the most recent buffer;
throws if there is none or if it is already committed. -/
def writeCb (s : CollState) (msg : ChangeMessage) : Except CollErr CollState :=
  match s.pendingSyncedTransactions.getLast? with
  | none => .error .noPendingSyncTransaction
  | some pt =>
    if pt.committed then .error .alreadyCommitted
    else .ok { s with pendingSyncedTransactions :=
        s.pendingSyncedTransactions.dropLast
          ++ [{ pt with operations := pt.operations ++ [msg] }] }

/-- The `commit` callback: marks the most recent buffer committed (throwing
if there is none or it is already committed) and runs
`commitPendingTransactions`. -/
def commitCb (s : CollState) : Except CollErr CollState :=
  match s.pendingSyncedTransactions.getLast? with
  | none => .error .noPendingSyncTransaction
  | some pt =>
    if pt.committed then .error .alreadyCommitted
    else .ok (commitPendingTransactions
      { s with pendingSyncedTransactions :=
          s.pendingSyncedTransactions.dropLast
            ++ [{ pt with committed := true }] })

/-- Count of open (uncommitted) buffers in the ingestion queue. -/
def openBufferCount (s : CollState) : Nat :=
  (s.pendingSyncedTransactions.filter fun b => !b.committed).length

/-! ## Schema validation (`validateData`) -/

/-- `validateData`: with no schema the data passes through.  For an update
on a key whose record exists in the overlay, the schema validates the
*merged* record `{...existingData, ...data}` but on success the original
(unmerged) `data` is returned.  Otherwise the data is validated directly and
the validator's output value is returned. -/
def validateData (s : CollState) (data : Rec) (ty : OpType)
    (key : Option Key) : Except CollErr Rec :=
  match s.config.schema with
  | none => .ok data
  | some validate =>
    let existingForUpdate : Option Rec :=
      match ty, key with
      | .update, some k => stateGet s k
      | _, _ => none
    match existingForUpdate with
    | some existingData =>
      match validate (spread existingData data) with
      | .error issues => .error (.schemaError ty issues)
      | .ok _ => .ok data
    | none =>
      match validate data with
      | .error issues => .error (.schemaError ty issues)
      | .ok v => .ok v

/-! ## Draft-diff tracking -/

/-- Modelled from the spec: the Draft-Diff Tracker
(`withChangeTracking` / `withArrayChangeTracking` of `proxy.ts`, which is
not under `src/`).  Given a baseline and the record the mutator produced,
it returns only the top-level fields that differ from the baseline: the
entries of `next` that are its effective (first-occurrence) value for their
field and differ from the baseline's value for that field. -/
def diffFields (base next : Rec) : Rec :=
  next.filter fun p =>
    decide (mget next p.1 = some p.2 ∧ ¬ mget base p.1 = some p.2)


/-! ## Transaction creation -/

/-- Modelled from the spec: `applyTransaction` of the Transaction
Coordinator (`TransactionManager.ts`, which is not under `src/`).  It
creates the transaction in the `pending` state and immediately,
synchronously makes it visible to the overlay by adding it to the live
transaction set. -/
def applyTransaction (s : CollState) (muts : List PendingMutation) :
    CollState × Transaction :=
  let tx : Transaction := { state := .pending, mutations := muts }
  ({ s with transactions := s.transactions ++ [tx] }, tx)

/-! ## `update` -/

/-- Resolve each item through the identity association, throwing
`Object not found in collection` for an unassociated object (the `keys`
computation of `update`). -/
def resolveKeys (s : CollState) (items : List ObjRef) :
    Except CollErr (List Key) :=
  items.mapM fun it =>
    match mget s.objectKeyMap it.id with
    | some k => Except.ok k
    | none => Except.error CollErr.objectNotFound

/-- The per-item loop of `update`: skip an item whose diff is empty,
otherwise validate the diff and build a `PendingMutation` whose `original`
is the overlay record, whose `modified` is the overlay record with the
validated diff spread on top, and whose `changes` is the validated diff. -/
def buildUpdateMutation (s : CollState) (cfgMeta : Option Rec)
    (k : Key) (changes : Rec) : Except CollErr (Option PendingMutation) :=
  if changes.isEmpty then .ok none
  else
    match validateData s changes .update (some k) with
    | .error e => .error e
    | .ok validated =>
      .ok (some
        { key := k
          type := .update
          original := (stateGet s k).getD []
          modified := spread ((stateGet s k).getD []) validated
          changes := validated
          metadata := cfgMeta
          syncMetadata := (mget s.syncedMetadata k).getD [] })

/-- The `update` method.  The caller's mutator is modelled as a function on
the list of baseline records (the drafts), and the Draft-Diff Tracker
(`diffFields`, modelled from the spec) yields one diff per baseline.  If no
item produced a non-empty diff the call fails with the no-op error and no
transaction is created; otherwise a transaction holding the surviving
mutations is created and returned. -/
def updateOp (s : CollState) (items : List ObjRef) (cfgMeta : Option Rec)
    (mutator : List Rec → List Rec) :
    Except CollErr (CollState × Transaction) :=
  if !s.config.hasMutationFn then .error .noMutationFn
  else
    match resolveKeys s items with
    | .error e => .error e
    | .ok keys =>
      let currentObjects := keys.map fun k => (stateGet s k).getD []
      let changesArray :=
        (currentObjects.zip (mutator currentObjects)).map
          fun p => diffFields p.1 p.2
      match (keys.zip changesArray).mapM
          (fun p => buildUpdateMutation s cfgMeta p.1 p.2) with
      | .error e => .error e
      | .ok mutsOpt =>
        let mutations := mutsOpt.reduceOption
        if mutations.isEmpty then .error .noChanges
        else .ok (applyTransaction s mutations)

/-! ## `delete` -/

/-- A `delete` argument: a live record reference or a bare key. -/
inductive DeleteTarget where
  | ref (r : ObjRef)
  | key (k : Key)

/-- The tombstone record `{ _deleted: true }` (`true` modelled as `1`). -/
def tombstone : Rec := [("_deleted", 1)]

/-- Resolve the targets of a `delete` call: a live reference through the
identity association (throwing if unassociated), a string used as the key. -/
def resolveDeleteKeys (s : CollState) (items : List DeleteTarget) :
    Except CollErr (List Key) :=
  items.mapM fun it =>
    match it with
    | .ref r =>
      match mget s.objectKeyMap r.id with
      | some k => Except.ok k
      | none => Except.error CollErr.objectNotFound
    | .key k => Except.ok k

/-- The tombstone mutation `delete` builds for one key. -/
def buildDeleteMutation (s : CollState) (cfgMeta : Option Rec)
    (k : Key) : PendingMutation :=
  { key := k
    type := .delete
    original := (stateGet s k).getD []
    modified := tombstone
    changes := tombstone
    metadata := cfgMeta
    syncMetadata := (mget s.syncedMetadata k).getD [] }

/-- The `mutations.forEach` loop of `delete`: for each mutation's key, if
the overlay currently holds an object there, remove that object's entry
from the identity association. -/
def invalidateKeyMap (okm : List (Nat × Key)) (objs : List (Key × ObjRef))
    (muts : List PendingMutation) : List (Nat × Key) :=
  muts.foldl
    (fun m mu =>
      match mget objs mu.key with
      | some cur => mdel m cur.id
      | none => m)
    okm

/-- The `delete` method: resolve keys, build one tombstone mutation per
target, eagerly invalidate the identity association for the removed keys,
then create the transaction. -/
def deleteOp (s : CollState) (items : List DeleteTarget)
    (cfgMeta : Option Rec) : Except CollErr (CollState × Transaction) :=
  if !s.config.hasMutationFn then .error .noMutationFn
  else
    match resolveDeleteKeys s items with
    | .error e => .error e
    | .ok keys =>
      let mutations := keys.map (buildDeleteMutation s cfgMeta)
      let okm := invalidateKeyMap s.objectKeyMap s.overlayObjs mutations
      .ok (applyTransaction { s with objectKeyMap := okm } mutations)

/-! ## Event-level semantics -/

/-- Replace the state of the `i`-th transaction. -/
def setTxState : List Transaction → Nat → TransactionState → List Transaction
  | [], _, _ => []
  | t :: ts, 0, st => { t with state := st } :: ts
  | t :: ts, n + 1, st => t :: setTxState ts n st

/-- External events that drive the collection: the three sync-source
ingestion callbacks, a transaction state change, and an `onFirstCommit`
registration.  A `write`/`commit` that throws leaves the state unchanged. -/
inductive CollEvent where
  | beginE
  | writeE (msg : ChangeMessage)
  | commitE
  | txSetE (i : Nat) (st : TransactionState)
  | registerE (cid : Nat)

/-- Modelled from the spec for the `txSetE` case: "merge is retried
whenever the transaction set changes" — the transaction coordinator
(`TransactionManager.ts`, not under `src/`; the collection's own
subscription at `collection.ts:330-334` is commented out) re-runs
`commitPendingTransactions` after every transaction state change. -/
def applyEvent (s : CollState) (e : CollEvent) : CollState :=
  match e with
  | .beginE => beginCb s
  | .writeE m =>
    match writeCb s m with
    | .ok s' => s'
    | .error _ => s
  | .commitE =>
    match commitCb s with
    | .ok s' => s'
    | .error _ => s
  | .txSetE i st =>
    commitPendingTransactions
      { s with transactions := setTxState s.transactions i st }
  | .registerE cid =>
    { s with onFirstCommitCallbacks := s.onFirstCommitCallbacks ++ [cid] }

def runEvents (s : CollState) (es : List CollEvent) : CollState :=
  es.foldl applyEvent s

/-- A run in which the only events are transaction state changes: no
further sync-source calls occur. -/
def runTxEvents (s : CollState) (es : List (Nat × TransactionState)) :
    CollState :=
  es.foldl (fun t e => applyEvent t (.txSetE e.1 e.2)) s

/-- Decidable equality for `Except`, used to evaluate concrete runs of the
fallible callbacks. -/
instance {ε α : Type} [DecidableEq ε] [DecidableEq α] :
    DecidableEq (Except ε α) := fun x y =>
  match x, y with
  | .ok a, .ok b =>
    if h : a = b then isTrue (by rw [h]) else isFalse (by simp [h])
  | .error a, .error b =>
    if h : a = b then isTrue (by rw [h]) else isFalse (by simp [h])
  | .ok _, .error _ => isFalse (by simp)
  | .error _, .ok _ => isFalse (by simp)

/-! ## Concrete states used to instantiate the theorems -/

/-- A collection holding one non-terminal (pending) transaction and one open
ingestion buffer containing a single insert. -/
def gatedState : CollState :=
  { initState defaultConfig with
    transactions := [{ state := .pending, mutations := [] }]
    pendingSyncedTransactions :=
      [{ committed := false,
         operations := [{ type := .insert, key := "k1",
                          value := [("a", 1)] }] }] }

/-- Sample synced dataset used to instantiate the overlay theorems. -/
def sampleSynced : RMap := [("k1", [("a", 1)]), ("k3", [("c", 3)])]

/-- A pending insert of a fresh key. -/
def sampleTx1 : Transaction :=
  { state := .pending,
    mutations := [{ key := "k2", type := .insert, original := [],
                    modified := [("b", 2)], changes := [("b", 2)],
                    metadata := none, syncMetadata := [] }] }

/-- A completed insert, which must not contribute to the overlay. -/
def sampleTx2 : Transaction :=
  { state := .completed,
    mutations := [{ key := "k9", type := .insert, original := [],
                    modified := [("z", 9)], changes := [("z", 9)],
                    metadata := none, syncMetadata := [] }] }

/-- A persisting transaction updating one key and deleting another. -/
def sampleTx3 : Transaction :=
  { state := .persisting,
    mutations := [{ key := "k1", type := .update, original := [("a", 1)],
                    modified := [("a", 2)], changes := [("a", 2)],
                    metadata := none, syncMetadata := [] },
                  { key := "k3", type := .delete, original := [("c", 3)],
                    modified := tombstone, changes := tombstone,
                    metadata := none, syncMetadata := [] }] }

def sampleTxs : List Transaction := [sampleTx1, sampleTx2, sampleTx3]

/-- A pending insert of key `"k1"`, overlapping with `overlapTx2`. -/
def overlapTx1 : Transaction :=
  { state := .pending,
    mutations := [{ key := "k1", type := .insert, original := [],
                    modified := [("a", 1)], changes := [("a", 1)],
                    metadata := none, syncMetadata := [] }] }

/-- A pending update of the same key `"k1"` whose `modified` record carries
only the updated field. -/
def overlapTx2 : Transaction :=
  { state := .pending,
    mutations := [{ key := "k1", type := .update, original := [("a", 1)],
                    modified := [("b", 2)], changes := [("b", 2)],
                    metadata := none, syncMetadata := [] }] }

/-- A collection tracking one object (id 7) under key `"k1"` with record
`{a: 1}`. -/
def trackedState : CollState :=
  { initState defaultConfig with
    objectKeyMap := [(7, "k1")]
    overlayObjs := [("k1", { id := 7, val := [("a", 1)] })] }

/-- A schema that accepts exactly the records whose field `"a"` is `1`.  It
accepts the merged record of the C8 witness but rejects the bare diff
`{b: 2}`. -/
def fieldAValidate : Rec → Except (List String) Rec := fun r =>
  if mget r "a" = some 1 then .ok r else .error ["field a must be 1"]

/-- The tracked collection equipped with the `fieldAValidate` schema. -/
def schemaState : CollState :=
  { initState { hasMutationFn := true, schema := some fieldAValidate } with
    objectKeyMap := [(7, "k1")]
    overlayObjs := [("k1", { id := 7, val := [("a", 1)] })] }

/-- A mutator that sets field `"b"` to `2` on every draft. -/
def setFieldB : List Rec → List Rec := fun l => l.map fun r => spread r [("b", 2)]

/-- A collection with one pending transaction and one committed but
not-yet-merged (deferred) ingestion buffer. -/
def deferredState : CollState :=
  { initState defaultConfig with
    transactions := [{ state := .pending, mutations := [] }]
    pendingSyncedTransactions :=
      [{ committed := true,
         operations := [{ type := .insert, key := "k1",
                          value := [("a", 1)] }] }] }

/-- A collection that has already received its first commit. -/
def readyState : CollState :=
  { initState defaultConfig with hasReceivedFirstCommit := true }

/-- The synchronous guard of `stateWhenReady` / `toArrayWhenReady`: resolve
immediately when the overlay already holds data or the first commit has
been received. -/
def stateWhenReadyResolvesImmediately (s : CollState) : Bool :=
  decide (0 < (overlayOf s.syncedData s.transactions).length)
    || s.hasReceivedFirstCommit

/-- A collection with one completed transaction and two queued buffers, the
second of which was never committed. -/
def twoBufferState : CollState :=
  { initState defaultConfig with
    transactions := [{ state := .completed, mutations := [] }]
    pendingSyncedTransactions :=
      [{ committed := true,
         operations := [{ type := .insert, key := "k1",
                          value := [("a", 1)] }] },
       { committed := false,
         operations := [{ type := .insert, key := "k2",
                          value := [("b", 2)] }] }] }

/-! ## General lemmas about the embedded operations -/

section MapLemmas

variable {κ : Type} {α : Type} [DecidableEq κ]

theorem mget_mset_self (m : List (κ × α)) (k : κ) (v : α) :
    mget (mset m k v) k = some v := by
  induction m with
  | nil => simp [mget, mset]
  | cons p rest ih =>
    by_cases h : p.1 = k
    · simp [mget, mset, h]
    · simp [mget, mset, h, ih]

theorem mget_mset_ne (m : List (κ × α)) (k k' : κ) (v : α) (h : ¬ k' = k) :
    mget (mset m k v) k' = mget m k' := by
  have h' : ¬ k = k' := fun hh => h hh.symm
  induction m with
  | nil => simp [mget, mset, h']
  | cons p rest ih =>
    by_cases hp : p.1 = k
    · subst hp
      simp [mget, mset, h']
    · simp [mget, mset, hp, ih]

theorem mget_mdel_self (m : List (κ × α)) (k : κ) :
    mget (mdel m k) k = none := by
  induction m with
  | nil => simp [mget, mdel]
  | cons p rest ih =>
    by_cases hp : p.1 = k
    · simpa [mdel, hp] using ih
    · simpa [mdel, hp, mget] using ih

theorem mget_mdel_ne (m : List (κ × α)) (k k' : κ) (h : ¬ k' = k) :
    mget (mdel m k) k' = mget m k' := by
  induction m with
  | nil => simp [mget, mdel]
  | cons p rest ih =>
    by_cases hp : p.1 = k
    · subst hp
      have h' : ¬ p.1 = k' := fun hh => h hh.symm
      simpa [mdel, List.filter_cons, mget, h'] using ih
    · by_cases hp' : p.1 = k'
      · simp [mdel, List.filter_cons, hp, mget, hp', h]
      · simpa [mdel, List.filter_cons, hp, mget, hp'] using ih

end MapLemmas

theorem mget_spread (a b : Rec) (f : Field) :
    mget (spread a b) f = ((mget b f).rec (mget a f) fun v => some v) := by
  induction b with
  | nil => simp [spread, mget]
  | cons p rest ih =>
    by_cases hp : p.1 = f
    · simp [spread, mget, hp]
    · simpa [spread, mget, hp] using ih

theorem optimisticOperations_eq_map (txs : List Transaction) :
    optimisticOperations txs =
      (mutationsOfNonTerminal txs).map toChangeMessage := by
  simp [optimisticOperations, mutationsOfNonTerminal, List.map_flatten,
    List.map_map]
  rfl

/-- The key of the map an operation produced from a mutation acts on is the
mutation's key. -/
theorem applyMutation_key_agnostic (synced combined : RMap)
    (m : PendingMutation) (k : Key) (h : ¬ k = m.key) :
    mget (applyMutationCode synced combined m) k = mget combined k ∧
    mget (applyMutationSpec combined m) k = mget combined k := by
  constructor <;>
    · cases htype : m.type <;>
        simp [applyMutationCode, applyMutationSpec, applyOperation,
          toChangeMessage, htype, mget_mset_ne _ _ _ _ h, mget_mdel_ne _ _ _ h]

/-- Core lemma for claim C2: on mutation lists with pairwise-distinct keys,
the code's fold (update merges onto the synced record) and the spec's fold
(update merges onto the accumulated record) coincide, as long as the
accumulator agrees with the synced data on all remaining keys. -/
theorem foldl_code_eq_spec (synced : RMap) :
    ∀ (ms : List PendingMutation) (acc : RMap),
      (∀ m ∈ ms, mget acc m.key = mget synced m.key) →
      ms.Pairwise (fun a b => ¬ a.key = b.key) →
      ms.foldl (applyMutationCode synced) acc = ms.foldl applyMutationSpec acc
  | [], acc, _, _ => rfl
  | m :: rest, acc, hacc, hpw => by
    have h0 : mget acc m.key = mget synced m.key := hacc m (by simp)
    have hstep : applyMutationCode synced acc m = applyMutationSpec acc m := by
      cases htype : m.type <;>
        simp [applyMutationCode, applyMutationSpec, applyOperation,
          toChangeMessage, htype, h0]
    have hrest : ∀ m' ∈ rest,
        mget (applyMutationCode synced acc m) m'.key = mget synced m'.key := by
      intro m' hm'
      have hne : ¬ m'.key = m.key := by
        have := (List.pairwise_cons.mp hpw).1 m' hm'
        exact fun hh => this hh.symm
      rw [(applyMutation_key_agnostic synced acc m m'.key hne).1]
      exact hacc m' (by simp [hm'])
    have hpw' : rest.Pairwise (fun a b => ¬ a.key = b.key) :=
      (List.pairwise_cons.mp hpw).2
    simp only [List.foldl_cons, hstep]
    exact foldl_code_eq_spec synced rest (applyMutationSpec acc m)
      (by rw [← hstep]; exact hrest) hpw'

theorem diffFields_self (b : Rec) : diffFields b b = [] := by
  simp only [diffFields, List.filter_eq_nil_iff]
  intro p _
  simp only [decide_eq_true_eq, not_and, not_not]
  intro h
  exact h

theorem zip_self_diffFields (l : List Rec) :
    ((l.zip l).map fun p => diffFields p.1 p.2) = l.map fun _ => ([] : Rec) := by
  induction l with
  | nil => rfl
  | cons a t ih => simp [List.zip_cons_cons, diffFields_self, ih]

theorem snd_of_mem_zip_map_const {α β γ : Type} (l1 : List α) (l2 : List β)
    (c : γ) : ∀ p ∈ l1.zip (l2.map fun _ => c), p.2 = c := by
  intro p hp
  have hmem := (List.of_mem_zip hp).2
  obtain ⟨b, _, hc⟩ := List.mem_map.mp hmem
  exact hc.symm

theorem mapM_buildUpdateMutation_all_empty (s : CollState)
    (cfgMeta : Option Rec) :
    ∀ (ps : List (Key × Rec)), (∀ p ∈ ps, p.2 = ([] : Rec)) →
      (ps.mapM fun p => buildUpdateMutation s cfgMeta p.1 p.2) =
        .ok (ps.map fun _ => (none : Option PendingMutation))
  | [], _ => rfl
  | p :: rest, h => by
    have h0 : p.2 = [] := h p (by simp)
    have ih := mapM_buildUpdateMutation_all_empty s cfgMeta rest
      (fun q hq => h q (by simp [hq]))
    rw [List.mapM_cons, ih]
    simp only [buildUpdateMutation, h0, List.isEmpty_nil, if_true]
    rfl

theorem reduceOption_map_none {α β : Type} (l : List α) :
    (l.map fun _ => (none : Option β)).reduceOption = [] := by
  induction l with
  | nil => rfl
  | cons a t ih => simpa [List.reduceOption_cons_of_none] using ih

/-! ## Lemmas about the merge gate and `commitPendingTransactions` -/

theorem dropLast_append_getLast?_eq {α : Type} (l : List α) (x : α)
    (h : l.getLast? = some x) : l.dropLast ++ [x] = l := by
  induction l with
  | nil => simp [List.getLast?] at h
  | cons a l ih =>
    cases l with
    | nil => simp [List.getLast?] at h; simp [h]
    | cons b t =>
      rw [List.getLast?_cons_cons] at h
      simpa using ih h

theorem any_nonterminal_false_of_all (txs : List Transaction)
    (h : ∀ t ∈ txs, isTerminalB t.state = true) :
    (txs.any fun t => !(isTerminalB t.state)) = false := by
  rw [Bool.eq_false_iff]
  intro hc
  obtain ⟨t, ht, hnt⟩ := List.any_eq_true.mp hc
  rw [h t ht] at hnt
  simp at hnt

/-- When some transaction is non-terminal, `commitPendingTransactions`
changes nothing at all. -/
theorem commitPendingTransactions_gated (s : CollState)
    (h : ∃ t ∈ s.transactions, isTerminalB t.state = false) :
    commitPendingTransactions s = s := by
  obtain ⟨t, ht, hterm⟩ := h
  have hany : (s.transactions.any fun t => !(isTerminalB t.state)) = true :=
    List.any_eq_true.mpr ⟨t, ht, by simp [hterm]⟩
  have hne : s.transactions.isEmpty = false := by
    cases hs : s.transactions with
    | nil => rw [hs] at ht; simp at ht
    | cons a l => simp
  unfold commitPendingTransactions
  simp [hany, hne]

/-- `commitPendingTransactions` never changes the transaction set. -/
theorem commitPendingTransactions_transactions (s : CollState) :
    (commitPendingTransactions s).transactions = s.transactions := by
  unfold commitPendingTransactions
  split
  · split <;> rfl
  · rfl

/-- When every transaction is terminal (or there are none), the merge
proceeds: the queue is folded into the synced data and metadata and cleared. -/
theorem commitPendingTransactions_merges (s : CollState)
    (h : ∀ t ∈ s.transactions, isTerminalB t.state = true) :
    (commitPendingTransactions s).pendingSyncedTransactions = [] ∧
    (commitPendingTransactions s).syncedData =
      (mergeBuffers s.syncedMetadata s.syncedData
        s.pendingSyncedTransactions).2 ∧
    (commitPendingTransactions s).syncedMetadata =
      (mergeBuffers s.syncedMetadata s.syncedData
        s.pendingSyncedTransactions).1 := by
  have hany := any_nonterminal_false_of_all s.transactions h
  unfold commitPendingTransactions
  rw [hany]
  simp only [Bool.not_false, Bool.or_true, if_true]
  split <;> simp

/-- Either `commitPendingTransactions` is the identity (merge gated) or it
folds the whole queue and clears it. -/
theorem commitPendingTransactions_cases (s : CollState) :
    commitPendingTransactions s = s ∨
    ((commitPendingTransactions s).pendingSyncedTransactions = [] ∧
     (commitPendingTransactions s).syncedData =
       (mergeBuffers s.syncedMetadata s.syncedData
         s.pendingSyncedTransactions).2 ∧
     (commitPendingTransactions s).syncedMetadata =
       (mergeBuffers s.syncedMetadata s.syncedData
         s.pendingSyncedTransactions).1) := by
  unfold commitPendingTransactions
  split
  · right
    split <;> simp
  · left
    rfl

theorem mergeBuffers_nil (md dt : RMap) : mergeBuffers md dt [] = (md, dt) :=
  rfl

/-- The nested merge loop equals one pass over the concatenation of all
buffered operations, in buffer order then intra-buffer order. -/
theorem mergeBuffers_eq_foldl_flatten (md dt : RMap)
    (bufs : List PendingSyncedTransaction) :
    mergeBuffers md dt bufs =
      ((bufs.map fun b => b.operations).flatten).foldl applySyncedOp
        (md, dt) := by
  rw [List.foldl_flatten, List.foldl_map]
  rfl

/-! ## Lemmas about event runs -/

/-- Along a run of transaction-state-change events the ingestion queue and
the synced stores either are still exactly as at the start, or the queue
has been folded in and cleared. -/
theorem runTxEvents_merge_inv (es : List (Nat × TransactionState)) :
    ∀ s : CollState,
      ((runTxEvents s es).pendingSyncedTransactions =
          s.pendingSyncedTransactions ∧
        (runTxEvents s es).syncedData = s.syncedData ∧
        (runTxEvents s es).syncedMetadata = s.syncedMetadata) ∨
      ((runTxEvents s es).pendingSyncedTransactions = [] ∧
        (runTxEvents s es).syncedData =
          (mergeBuffers s.syncedMetadata s.syncedData
            s.pendingSyncedTransactions).2 ∧
        (runTxEvents s es).syncedMetadata =
          (mergeBuffers s.syncedMetadata s.syncedData
            s.pendingSyncedTransactions).1) := by
  induction es with
  | nil => intro s; left; exact ⟨rfl, rfl, rfl⟩
  | cons e rest ih =>
    intro s
    have hstep : runTxEvents s (e :: rest) =
        runTxEvents (applyEvent s (.txSetE e.1 e.2)) rest := rfl
    rw [hstep]
    have hcpt := commitPendingTransactions_cases
      { s with transactions := setTxState s.transactions e.1 e.2 }
    have happ : applyEvent s (.txSetE e.1 e.2) =
        commitPendingTransactions
          { s with transactions := setTxState s.transactions e.1 e.2 } := rfl
    rcases hcpt with hid | ⟨hp, hd, hm⟩
    · rw [happ, hid]
      rcases ih { s with transactions := setTxState s.transactions e.1 e.2 }
        with ⟨h1, h2, h3⟩ | ⟨h1, h2, h3⟩
      · left; exact ⟨h1, h2, h3⟩
      · right; exact ⟨h1, h2, h3⟩
    · rw [happ]
      rcases ih (commitPendingTransactions
          { s with transactions := setTxState s.transactions e.1 e.2 })
        with ⟨h1, h2, h3⟩ | ⟨h1, h2, h3⟩
      · right
        rw [h1, h2, h3]
        exact ⟨hp, hd, hm⟩
      · right
        rw [hp, mergeBuffers_nil] at h2 h3
        rw [h2, h3]
        exact ⟨h1, hd, hm⟩

/-- `commitPendingTransactions` keeps the first-commit flag set and, once it
is set, never touches the fired-callback log. -/
theorem commitPendingTransactions_preserves_fired (s : CollState)
    (h : s.hasReceivedFirstCommit = true) :
    (commitPendingTransactions s).hasReceivedFirstCommit = true ∧
    (commitPendingTransactions s).firedCallbacks = s.firedCallbacks := by
  unfold commitPendingTransactions
  split
  · simp [h]
  · exact ⟨h, rfl⟩

theorem writeCb_ok_fields (s : CollState) (m' : ChangeMessage)
    (s' : CollState) (h : writeCb s m' = .ok s') :
    s'.hasReceivedFirstCommit = s.hasReceivedFirstCommit ∧
    s'.firedCallbacks = s.firedCallbacks := by
  unfold writeCb at h
  rcases hl : s.pendingSyncedTransactions.getLast? with _ | pt
  · rw [hl] at h
    simp at h
  · rw [hl] at h
    by_cases hc : pt.committed
    · simp [hc] at h
    · simp only [hc, Bool.false_eq_true, if_false, Except.ok.injEq] at h
      rw [← h]
      exact ⟨rfl, rfl⟩

theorem commitCb_ok_fired (s : CollState) (s' : CollState)
    (hflag : s.hasReceivedFirstCommit = true) (h : commitCb s = .ok s') :
    s'.hasReceivedFirstCommit = true ∧
    s'.firedCallbacks = s.firedCallbacks := by
  unfold commitCb at h
  rcases hl : s.pendingSyncedTransactions.getLast? with _ | pt
  · rw [hl] at h
    simp at h
  · rw [hl] at h
    by_cases hc : pt.committed
    · simp [hc] at h
    · simp only [hc, Bool.false_eq_true, if_false, Except.ok.injEq] at h
      rw [← h]
      exact commitPendingTransactions_preserves_fired _ hflag

/-- Once the first commit has been received, no event ever changes the
fired-callback log again, and the flag stays set. -/
theorem applyEvent_preserves_fired (s : CollState) (e : CollEvent)
    (h : s.hasReceivedFirstCommit = true) :
    (applyEvent s e).hasReceivedFirstCommit = true ∧
    (applyEvent s e).firedCallbacks = s.firedCallbacks := by
  cases e with
  | beginE => exact ⟨h, rfl⟩
  | writeE m' =>
    simp only [applyEvent]
    rcases hw : writeCb s m' with e' | s'
    · exact ⟨h, rfl⟩
    · obtain ⟨h1, h2⟩ := writeCb_ok_fields s m' s' hw
      exact ⟨h1.trans h, h2⟩
  | commitE =>
    simp only [applyEvent]
    rcases hw : commitCb s with e' | s'
    · exact ⟨h, rfl⟩
    · exact commitCb_ok_fired s s' h hw
  | txSetE i st =>
    exact commitPendingTransactions_preserves_fired _ h
  | registerE cid => exact ⟨h, rfl⟩

theorem runEvents_preserves_fired (es : List CollEvent) :
    ∀ s : CollState, s.hasReceivedFirstCommit = true →
      (runEvents s es).hasReceivedFirstCommit = true ∧
      (runEvents s es).firedCallbacks = s.firedCallbacks := by
  induction es with
  | nil => intro s h; exact ⟨h, rfl⟩
  | cons e rest ih =>
    intro s h
    obtain ⟨h1, h2⟩ := applyEvent_preserves_fired s e h
    obtain ⟨h3, h4⟩ := ih (applyEvent s e) h1
    exact ⟨h3, h4.trans h2⟩

/-! ## Claim C1 -/

/-- C1: for every `commit()` delivered by the sync source, the merge of
buffered changes into the synced dataset proceeds only if the transaction
set is empty or every transaction is terminal; if any transaction is
non-terminal, `SyncedDataset` and `SyncedMetadata` are left unchanged by
that commit and the buffers (their buffered operations) remain queued. -/
theorem commit_gated_by_nonterminal_transaction (s : CollState)
    (pt : PendingSyncedTransaction)
    (hlast : s.pendingSyncedTransactions.getLast? = some pt)
    (hopen : pt.committed = false)
    (hnt : ∃ t ∈ s.transactions, isTerminalB t.state = false) :
    ∃ s', commitCb s = .ok s' ∧
      s'.syncedData = s.syncedData ∧
      s'.syncedMetadata = s.syncedMetadata ∧
      (s'.pendingSyncedTransactions.map fun b => b.operations) =
        s.pendingSyncedTransactions.map fun b => b.operations := by
  have hmark : commitPendingTransactions
      { s with pendingSyncedTransactions :=
          s.pendingSyncedTransactions.dropLast
            ++ [{ pt with committed := true }] } =
      { s with pendingSyncedTransactions :=
          s.pendingSyncedTransactions.dropLast
            ++ [{ pt with committed := true }] } :=
    commitPendingTransactions_gated _ hnt
  refine ⟨{ s with pendingSyncedTransactions :=
      s.pendingSyncedTransactions.dropLast
        ++ [{ pt with committed := true }] }, ?_, rfl, rfl, ?_⟩
  · unfold commitCb
    rw [hlast]
    simp only [hopen, Bool.false_eq_true, if_false, hmark]
  · conv_rhs =>
      rw [← dropLast_append_getLast?_eq s.pendingSyncedTransactions pt hlast]
    simp

/-- C1 witness: a concrete gated commit — one pending transaction, one open
buffer holding an insert; the commit succeeds and changes no synced state. -/
theorem commit_gated_by_nonterminal_transaction_witness :
    ∃ s', commitCb gatedState = .ok s' ∧
      s'.syncedData = gatedState.syncedData ∧
      s'.syncedMetadata = gatedState.syncedMetadata ∧
      (s'.pendingSyncedTransactions.map fun b => b.operations) =
        gatedState.pendingSyncedTransactions.map fun b => b.operations :=
  commit_gated_by_nonterminal_transaction gatedState
    { committed := false,
      operations := [{ type := .insert, key := "k1", value := [("a", 1)] }] }
    (by decide) (by decide)
    ⟨{ state := .pending, mutations := [] }, by decide, by decide⟩

/-! ## Claim C2 -/

/-- C2 counterexample: a pending insert of `"k1"` followed by a pending
update of the same key.  The code's overlay merges the update onto the
record present in `syncedData` (here: absent, so the empty record) and the
overlay holds only the update's fields, while the claim's sequential
reading — each update merging into the existing-or-empty record of the view
built so far — would retain the inserted field `a`.  The two disagree at
this state, refuting the claim's universal first half. -/
theorem overlay_update_ignores_accumulated_view :
    overlayOf [] [overlapTx1, overlapTx2] = [("k1", [("b", 2)])] ∧
    (mutationsOfNonTerminal [overlapTx1, overlapTx2]).foldl
      applyMutationSpec [] = [("k1", [("b", 2), ("a", 1)])] ∧
    overlayOf [] [overlapTx1, overlapTx2] ≠
      (mutationsOfNonTerminal [overlapTx1, overlapTx2]).foldl
        applyMutationSpec [] :=
  ⟨by decide, by decide, by decide⟩

/-- C2 amended: for every state of the collection, the overlay read view
equals the synced dataset with every pending mutation of every non-terminal
transaction applied in transaction-then-mutation order, where an insert sets
the key to the mutation's record, an update merges the mutation's fields
into the record present in the *synced dataset* (or the empty record) — not
into the record accumulated so far — and a delete removes the key; and
whenever the surviving mutations' keys are pairwise distinct (in particular
for all sequences of insert/update/delete on disjoint keys) this coincides
with applying every surviving mutation sequentially in creation order, each
update merging into the existing-or-empty record of the view built so far. -/
theorem overlay_equals_code_fold_and_spec_fold_on_disjoint_keys
    (synced : RMap) (txs : List Transaction) :
    overlayOf synced txs =
      (mutationsOfNonTerminal txs).foldl (applyMutationCode synced) synced ∧
    (((mutationsOfNonTerminal txs).map fun m => m.key).Nodup →
      overlayOf synced txs =
        (mutationsOfNonTerminal txs).foldl applyMutationSpec synced) := by
  have h1 : overlayOf synced txs =
      (mutationsOfNonTerminal txs).foldl (applyMutationCode synced) synced := by
    rw [overlayOf, derivedStateFn, optimisticOperations_eq_map,
      List.foldl_map]
    rfl
  refine ⟨h1, fun hdisj => ?_⟩
  rw [h1]
  exact foldl_code_eq_spec synced _ _ (fun m _ => rfl)
    (List.pairwise_map.mp hdisj)

/-- C2 amended witness: a concrete overlay over two synced keys and three
transactions (a pending insert, a completed insert, and a persisting
update-plus-delete) whose non-terminal mutations touch pairwise-distinct
keys; both the code fold and the sequential spec fold agree with the
overlay. -/
theorem overlay_equals_code_fold_and_spec_fold_on_disjoint_keys_witness :
    overlayOf sampleSynced sampleTxs =
      (mutationsOfNonTerminal sampleTxs).foldl
        (applyMutationCode sampleSynced) sampleSynced ∧
    overlayOf sampleSynced sampleTxs =
      (mutationsOfNonTerminal sampleTxs).foldl applyMutationSpec
        sampleSynced :=
  ⟨(overlay_equals_code_fold_and_spec_fold_on_disjoint_keys sampleSynced
      sampleTxs).1,
    (overlay_equals_code_fold_and_spec_fold_on_disjoint_keys sampleSynced
      sampleTxs).2 (by decide)⟩

/-! ## Claim C3 -/

/-- C3: no mutation of a `completed` or `failed` transaction ever
contributes to the overlay — removing a terminal transaction from the live
set leaves the overlay unchanged, wherever it sits in the list, so a failed
transaction's effect is fully retracted on the next recomputation. -/
theorem terminal_transaction_never_contributes (synced : RMap)
    (txs1 txs2 : List Transaction) (t : Transaction)
    (ht : isTerminalB t.state = true) :
    overlayOf synced (txs1 ++ t :: txs2) = overlayOf synced (txs1 ++ txs2) := by
  simp [overlayOf, optimisticOperations, List.filter_append, List.filter_cons,
    ht]

/-- C3 witness: dropping the completed transaction from the sample list
leaves the overlay unchanged. -/
theorem terminal_transaction_never_contributes_witness :
    overlayOf sampleSynced ([sampleTx1] ++ sampleTx2 :: [sampleTx3]) =
      overlayOf sampleSynced ([sampleTx1] ++ [sampleTx3]) :=
  terminal_transaction_never_contributes sampleSynced [sampleTx1] [sampleTx3]
    sampleTx2 (by decide)

/-! ## Claim C5 -/

/-- C5 counterexample: the claim says a second `begin()` while a buffer is
open fails; in the code `begin` contains no check and no throw.  Starting
from a fresh collection, two consecutive `begin()` calls both succeed and
leave two open (uncommitted) buffers — so more than one open buffer can
exist. -/
theorem begin_twice_leaves_two_open_buffers :
    openBufferCount (beginCb (beginCb (initState defaultConfig))) = 2 := by
  decide

/-- C5 amended: `begin()` never fails — it unconditionally appends a fresh
open buffer to the queue (out-of-order protocol checks exist only in
`write` and `commit`), so the number of open buffers grows by one with
every call and is not bounded by one. -/
theorem begin_always_opens_new_buffer (s : CollState) :
    beginCb s =
      { s with pendingSyncedTransactions :=
          s.pendingSyncedTransactions
            ++ [{ committed := false, operations := [] }] } ∧
    openBufferCount (beginCb s) = openBufferCount s + 1 := by
  refine ⟨rfl, ?_⟩
  simp [openBufferCount, beginCb, List.filter_append]

/-! ## Claim C6 -/

/-- C6 counterexample: the claim says changes of a buffer that has not been
committed are not folded.  The call sequence
`begin; write(insert k1); begin; write(insert k2); commit` is accepted
without error (before the commit both buffers are open), the first buffer is
never committed, yet the merge folds its insert of `"k1"` into the synced
dataset and clears the whole queue. -/
theorem uncommitted_buffer_changes_are_folded :
    (((writeCb (beginCb (initState defaultConfig))
        { type := .insert, key := "k1", value := [("a", 1)] }).bind fun s2 =>
      (writeCb (beginCb s2)
        { type := .insert, key := "k2", value := [("b", 2)] })).map fun s4 =>
        s4.pendingSyncedTransactions.map fun b => b.committed) =
      .ok [false, false] ∧
    ((((writeCb (beginCb (initState defaultConfig))
        { type := .insert, key := "k1", value := [("a", 1)] }).bind fun s2 =>
      (writeCb (beginCb s2)
        { type := .insert, key := "k2", value := [("b", 2)] })).bind
        commitCb).map fun sf => mget sf.syncedData "k1") =
      .ok (some [("a", 1)]) ∧
    ((((writeCb (beginCb (initState defaultConfig))
        { type := .insert, key := "k1", value := [("a", 1)] }).bind fun s2 =>
      (writeCb (beginCb s2)
        { type := .insert, key := "k2", value := [("b", 2)] })).bind
        commitCb).map fun sf =>
        sf.pendingSyncedTransactions.length) = .ok 0 := by
  exact ⟨by decide, by decide, by decide⟩

/-- C6 amended: when a merge attempt is permitted to proceed, the changes of
**all** queued ingestion buffers — committed or not — are folded into
`SyncedDataset` and `SyncedMetadata`, in buffer order then intra-buffer
order (insert overwrites, update merges fields onto the existing entry,
delete removes the key), and the buffer queue is cleared. -/
theorem merge_folds_all_queued_buffers (s : CollState)
    (h : ∀ t ∈ s.transactions, isTerminalB t.state = true) :
    (commitPendingTransactions s).syncedData =
      (((s.pendingSyncedTransactions.map fun b => b.operations).flatten).foldl
        applySyncedOp (s.syncedMetadata, s.syncedData)).2 ∧
    (commitPendingTransactions s).syncedMetadata =
      (((s.pendingSyncedTransactions.map fun b => b.operations).flatten).foldl
        applySyncedOp (s.syncedMetadata, s.syncedData)).1 ∧
    (commitPendingTransactions s).pendingSyncedTransactions = [] := by
  obtain ⟨hq, hd, hm⟩ := commitPendingTransactions_merges s h
  rw [← mergeBuffers_eq_foldl_flatten]
  exact ⟨hd, hm, hq⟩

/-- C6 amended witness: a merge over one committed and one uncommitted
queued buffer, with only a completed transaction present. -/
theorem merge_folds_all_queued_buffers_witness :
    (commitPendingTransactions twoBufferState).syncedData =
      (((twoBufferState.pendingSyncedTransactions.map
          fun b => b.operations).flatten).foldl applySyncedOp
        (twoBufferState.syncedMetadata, twoBufferState.syncedData)).2 ∧
    (commitPendingTransactions twoBufferState).syncedMetadata =
      (((twoBufferState.pendingSyncedTransactions.map
          fun b => b.operations).flatten).foldl applySyncedOp
        (twoBufferState.syncedMetadata, twoBufferState.syncedData)).1 ∧
    (commitPendingTransactions twoBufferState).pendingSyncedTransactions
      = [] :=
  merge_folds_all_queued_buffers twoBufferState (by decide)

/-! ## Claim C7 -/

/-- C7: an `update` whose mutator leaves every baseline record unchanged
fails synchronously with the no-op error (`No changes were made to any of
the objects`) and creates no transaction — the call returns the error
without producing a new state, so the transaction set is untouched. -/
theorem update_noop_fails_without_transaction (s : CollState)
    (items : List ObjRef) (cfgMeta : Option Rec)
    (mutator : List Rec → List Rec) (keys : List Key)
    (hmf : s.config.hasMutationFn = true)
    (hres : resolveKeys s items = .ok keys)
    (hid : mutator (keys.map fun k => (stateGet s k).getD []) =
      keys.map fun k => (stateGet s k).getD []) :
    updateOp s items cfgMeta mutator = .error .noChanges := by
  have hall : ∀ p ∈ keys.zip
      (((keys.map fun k => (stateGet s k).getD []).zip
        (mutator (keys.map fun k => (stateGet s k).getD []))).map
          fun p => diffFields p.1 p.2), p.2 = ([] : Rec) := by
    rw [hid, zip_self_diffFields]
    exact snd_of_mem_zip_map_const _ _ _
  simp only [updateOp, hmf, Bool.not_true, Bool.false_eq_true, if_false,
    hres, mapM_buildUpdateMutation_all_empty s cfgMeta _ hall,
    reduceOption_map_none, List.isEmpty_nil, if_true]

/-- C7 witness: updating the tracked record with the identity mutator
yields the no-op error. -/
theorem update_noop_fails_without_transaction_witness :
    updateOp trackedState [{ id := 7, val := [("a", 1)] }] none
      (fun l => l) = .error .noChanges :=
  update_noop_fails_without_transaction trackedState
    [{ id := 7, val := [("a", 1)] }] none (fun l => l) ["k1"]
    (by decide) (by decide) (by decide)

/-! ## Claim C8 -/

/-- C8: for an update with a non-empty diff on a record present in the
overlay, a configured schema validates the merged record (the existing
overlay value with the diff's fields spread on top), not the bare diff —
the validator's behaviour is constrained only at the merged record — and
the resulting pending mutation stores the unmerged diff in `changes` (and
the merged record in `modified`). -/
theorem update_validates_merged_record_stores_diff (s : CollState)
    (ref : ObjRef) (k : Key) (existing next v : Rec)
    (mutator : List Rec → List Rec)
    (validate : Rec → Except (List String) Rec) (cfgMeta : Option Rec)
    (hmf : s.config.hasMutationFn = true)
    (hschema : s.config.schema = some validate)
    (hkey : mget s.objectKeyMap ref.id = some k)
    (hcur : stateGet s k = some existing)
    (hmut : mutator [existing] = [next])
    (hne : (diffFields existing next).isEmpty = false)
    (hval : validate (spread existing (diffFields existing next)) = .ok v) :
    updateOp s [ref] cfgMeta mutator =
      .ok (applyTransaction s
        [{ key := k, type := .update, original := existing,
           modified := spread existing (diffFields existing next),
           changes := diffFields existing next,
           metadata := cfgMeta,
           syncMetadata := (mget s.syncedMetadata k).getD [] }]) := by
  have hresolve : resolveKeys s [ref] = .ok [k] := by
    simp [resolveKeys, List.mapM.loop, hkey]
  have hvalidate : validateData s (diffFields existing next) .update
      (some k) = .ok (diffFields existing next) := by
    simp [validateData, hschema, hcur, hval]
  simp only [updateOp, hmf, Bool.not_true, Bool.false_eq_true, if_false,
    hresolve, List.map_cons, List.map_nil, hcur, Option.getD_some, hmut,
    List.zip_cons_cons, List.zip_nil_right, List.mapM_cons, List.mapM_nil,
    buildUpdateMutation, hne, Bool.false_eq_true, if_false, hvalidate]
  simp [List.reduceOption_cons_of_some, hcur]

/-- C8 witness: the schema `fieldAValidate` rejects the bare diff `{b: 2}`
(field `a` is absent) but accepts the merged record `{b: 2, a: 1}`; the
update succeeds and its mutation stores the bare diff in `changes`. -/
theorem update_validates_merged_record_stores_diff_witness :
    updateOp schemaState [{ id := 7, val := [("a", 1)] }] none setFieldB =
      .ok (applyTransaction schemaState
        [{ key := "k1", type := .update, original := [("a", 1)],
           modified := spread [("a", 1)]
             (diffFields [("a", 1)] [("b", 2), ("a", 1)]),
           changes := diffFields [("a", 1)] [("b", 2), ("a", 1)],
           metadata := none,
           syncMetadata := (mget schemaState.syncedMetadata "k1").getD [] }]) :=
  update_validates_merged_record_stores_diff schemaState
    { id := 7, val := [("a", 1)] } "k1" [("a", 1)] [("b", 2), ("a", 1)]
    [("b", 2), ("a", 1)] setFieldB fieldAValidate none
    rfl rfl (by decide) (by decide) (by decide) (by decide) (by decide)

/-! ## Claim C9 -/

/-- C9: `delete` eagerly invalidates the identity association of the
object currently held by the overlay for each removed key, so deleting a
record and then calling `update` with that live reference fails
synchronously with the not-tracked error (`Object not found in
collection`) and creates no transaction — only the delete's transaction was
appended. -/
theorem delete_invalidates_association_then_update_fails (s : CollState)
    (ref : ObjRef) (k : Key) (cfgMeta cfgMeta' : Option Rec)
    (mutator : List Rec → List Rec)
    (hmf : s.config.hasMutationFn = true)
    (hkey : mget s.objectKeyMap ref.id = some k)
    (hcur : mget s.overlayObjs k = some ref) :
    ∃ s' tx, deleteOp s [.ref ref] cfgMeta = .ok (s', tx) ∧
      mget s'.objectKeyMap ref.id = none ∧
      s'.transactions = s.transactions ++ [tx] ∧
      updateOp s' [ref] cfgMeta' mutator = .error .objectNotFound := by
  have hresolve : resolveDeleteKeys s [.ref ref] = .ok [k] := by
    simp [resolveDeleteKeys, List.mapM.loop, hkey]
  have hdel : deleteOp s [.ref ref] cfgMeta =
      .ok (applyTransaction
        { s with objectKeyMap := mdel s.objectKeyMap ref.id }
        [buildDeleteMutation s cfgMeta k]) := by
    simp only [deleteOp, hmf, Bool.not_true, Bool.false_eq_true, if_false,
      hresolve, List.map_cons, List.map_nil]
    have : invalidateKeyMap s.objectKeyMap s.overlayObjs
        [buildDeleteMutation s cfgMeta k] = mdel s.objectKeyMap ref.id := by
      simp [invalidateKeyMap, buildDeleteMutation, hcur]
    rw [this]
  refine ⟨_, _, hdel, ?_, rfl, ?_⟩
  · exact mget_mdel_self s.objectKeyMap ref.id
  · have hnone : mget (mdel s.objectKeyMap ref.id) ref.id = none :=
      mget_mdel_self s.objectKeyMap ref.id
    simp only [updateOp, applyTransaction, hmf, Bool.not_true,
      Bool.false_eq_true, if_false, resolveKeys, List.mapM_cons, hnone]
    rfl

/-- C9 witness: deleting the tracked record, then updating through the same
reference, fails with the not-tracked error. -/
theorem delete_invalidates_association_then_update_fails_witness :
    ∃ s' tx, deleteOp trackedState
        [.ref { id := 7, val := [("a", 1)] }] none = .ok (s', tx) ∧
      mget s'.objectKeyMap 7 = none ∧
      s'.transactions = trackedState.transactions ++ [tx] ∧
      updateOp s' [{ id := 7, val := [("a", 1)] }] none setFieldB =
        .error .objectNotFound :=
  delete_invalidates_association_then_update_fails trackedState
    { id := 7, val := [("a", 1)] } "k1" none none setFieldB
    (by decide) (by decide) (by decide)

/-! ## Claim C4 -/

/-- C4: a deferred merge completes without further sync-source calls.  The
merge attempt is re-run on every transaction-set change (this retry is
modelled from the spec, see `applyEvent`), so along any non-empty run of
transaction state changes at whose end every transaction is terminal, the
queued buffers have been folded into the synced dataset and metadata and
the queue is empty. -/
theorem deferred_buffers_merge_once_all_terminal (s : CollState)
    (es : List (Nat × TransactionState)) (e : Nat × TransactionState)
    (hterm : ∀ t ∈ (runTxEvents s (es ++ [e])).transactions,
      isTerminalB t.state = true) :
    (runTxEvents s (es ++ [e])).pendingSyncedTransactions = [] ∧
    (runTxEvents s (es ++ [e])).syncedData =
      (mergeBuffers s.syncedMetadata s.syncedData
        s.pendingSyncedTransactions).2 ∧
    (runTxEvents s (es ++ [e])).syncedMetadata =
      (mergeBuffers s.syncedMetadata s.syncedData
        s.pendingSyncedTransactions).1 := by
  have hsplit : runTxEvents s (es ++ [e]) =
      applyEvent (runTxEvents s es) (.txSetE e.1 e.2) := by
    simp [runTxEvents, List.foldl_append]
  have happ : applyEvent (runTxEvents s es) (.txSetE e.1 e.2) =
      commitPendingTransactions
        { runTxEvents s es with
          transactions :=
            setTxState (runTxEvents s es).transactions e.1 e.2 } := rfl
  have htermm : ∀ t ∈ ({ runTxEvents s es with
      transactions :=
        setTxState (runTxEvents s es).transactions e.1 e.2 } :
        CollState).transactions, isTerminalB t.state = true := by
    intro t ht
    apply hterm
    rw [hsplit, happ, commitPendingTransactions_transactions]
    exact ht
  have hmerge := commitPendingTransactions_merges _ htermm
  rw [hsplit, happ]
  rcases runTxEvents_merge_inv es s with ⟨h1, h2, h3⟩ | ⟨h1, h2, h3⟩
  · refine ⟨hmerge.1, ?_, ?_⟩
    · rw [hmerge.2.1]
      show (mergeBuffers (runTxEvents s es).syncedMetadata
        (runTxEvents s es).syncedData
        (runTxEvents s es).pendingSyncedTransactions).2 = _
      rw [h1, h2, h3]
    · rw [hmerge.2.2]
      show (mergeBuffers (runTxEvents s es).syncedMetadata
        (runTxEvents s es).syncedData
        (runTxEvents s es).pendingSyncedTransactions).1 = _
      rw [h1, h2, h3]
  · refine ⟨hmerge.1, ?_, ?_⟩
    · rw [hmerge.2.1]
      show (mergeBuffers (runTxEvents s es).syncedMetadata
        (runTxEvents s es).syncedData
        (runTxEvents s es).pendingSyncedTransactions).2 = _
      rw [h1, mergeBuffers_nil]
      exact h2
    · rw [hmerge.2.2]
      show (mergeBuffers (runTxEvents s es).syncedMetadata
        (runTxEvents s es).syncedData
        (runTxEvents s es).pendingSyncedTransactions).1 = _
      rw [h1, mergeBuffers_nil]
      exact h3

/-- C4 witness: a collection with one pending transaction and one deferred
committed buffer; when the transaction completes, the buffer is folded in
and the queue empties, with no sync-source call in the run. -/
theorem deferred_buffers_merge_once_all_terminal_witness :
    (runTxEvents deferredState ([] ++ [(0, .completed)])).pendingSyncedTransactions
        = [] ∧
    (runTxEvents deferredState ([] ++ [(0, .completed)])).syncedData =
      (mergeBuffers deferredState.syncedMetadata deferredState.syncedData
        deferredState.pendingSyncedTransactions).2 ∧
    (runTxEvents deferredState ([] ++ [(0, .completed)])).syncedMetadata =
      (mergeBuffers deferredState.syncedMetadata deferredState.syncedData
        deferredState.pendingSyncedTransactions).1 :=
  deferred_buffers_merge_once_all_terminal deferredState [] (0, .completed)
    (by decide)

/-! ## Claim C10 -/

/-- C10: a callback registered through `onFirstCommit` after the first
successful merge has already happened is never invoked — the callback list
is drained only when the first-commit flag transitions from unset to set,
and the flag never resets, so along any subsequent run of events the fired
log never changes and never comes to contain the late callback
(`stateWhenReady` / `toArrayWhenReady` compensate: their guard already
resolves immediately once the flag is set). -/
theorem late_registered_callback_never_fires (s : CollState) (cid : Nat)
    (es : List CollEvent)
    (h : s.hasReceivedFirstCommit = true)
    (hfresh : cid ∉ s.firedCallbacks) :
    (runEvents (applyEvent s (.registerE cid)) es).firedCallbacks =
      s.firedCallbacks ∧
    cid ∉ (runEvents (applyEvent s (.registerE cid)) es).firedCallbacks ∧
    stateWhenReadyResolvesImmediately s = true := by
  have h1 : (applyEvent s (.registerE cid)).hasReceivedFirstCommit = true :=
    h
  obtain ⟨_, hfi⟩ :=
    runEvents_preserves_fired es (applyEvent s (.registerE cid)) h1
  have h2 : (applyEvent s (.registerE cid)).firedCallbacks =
      s.firedCallbacks := rfl
  rw [h2] at hfi
  refine ⟨hfi, ?_, ?_⟩
  · rw [hfi]; exact hfresh
  · simp [stateWhenReadyResolvesImmediately, h]

/-- C10 witness: a collection past its first commit registers callback 42;
a further begin/write/commit round merges more data but never fires it. -/
theorem late_registered_callback_never_fires_witness :
    (runEvents (applyEvent readyState (.registerE 42))
        [.beginE, .writeE { type := .insert, key := "k1",
                            value := [("a", 1)] }, .commitE]).firedCallbacks =
      readyState.firedCallbacks ∧
    42 ∉ (runEvents (applyEvent readyState (.registerE 42))
        [.beginE, .writeE { type := .insert, key := "k1",
                            value := [("a", 1)] }, .commitE]).firedCallbacks ∧
    stateWhenReadyResolvesImmediately readyState = true :=
  late_registered_callback_never_fires readyState 42
    [.beginE, .writeE { type := .insert, key := "k1", value := [("a", 1)] },
      .commitE] (by decide) (by decide)

end Optimistic
